import Mathlib

/-
Verification development for the Large-Scale-HyperTextual-Search-Engine
repository. The C++ sources are shallowly embedded: machine integers become
Nat with explicit `% 2 ^ 32` (uint32_t) and `% 256` (uint8_t) truncation,
byte buffers become `List Nat`, the process-global hash maps become
association lists or explicit state records, and `double` scores are
abstracted to `ℚ` where only their ordering matters. Each definition is
annotated with the source function it embeds.
-/

/- ==================== Integer codec ==================== -/

/-- `vbyte_encode_uint32` (src/indexer.cpp, lines 55–67).
The C loop emits `v & 0x7F` (here `v % 128`), shifts `v >>= 7`
(here `v / 128`), and on the final group sets the high bit
(`byte |= 0x80`, here `||| 128`). -/
def vbyte_encode_uint32 (v : Nat) : List Nat :=
  if _h : v / 128 = 0 then [(v % 128) ||| 128]
  else (v % 128) :: vbyte_encode_uint32 (v / 128)
termination_by v
decreasing_by exact Nat.div_lt_self (by omega) (by omega)

/-- Concatenation of encodings, as produced by consecutive calls of
`vbyte_encode_uint32` into one output buffer (src/indexer.cpp, lines 331–349). -/
def vbyte_encode_list (vs : List Nat) : List Nat :=
  (vs.map vbyte_encode_uint32).flatten

/-- The while-loop body of `vbyte_decode_uint32` (src/backend/searcher.cpp,
lines 17–34). `data.getD offset 0 % 256` is the `uint8_t` array read;
`result` and the final value are truncated to 32 bits exactly where the
C `uint32_t` assignments truncate. When `shift >= 32` after an update the
C code prints an error and returns 0 with the cursor already advanced;
when the cursor reaches `maxSize` the accumulated `result` is returned. -/
def vbyte_decode_loop (data : List Nat) (maxSize offset result shift : Nat) :
    Nat × Nat :=
  if _h : offset < maxSize then
    let byte := data.getD offset 0 % 256
    if byte &&& 128 ≠ 0 then
      ((result ||| ((byte &&& 127) <<< shift)) % 2 ^ 32, offset + 1)
    else
      let result1 := (result ||| (byte <<< shift)) % 2 ^ 32
      if shift + 7 ≥ 32 then (0, offset + 1)
      else vbyte_decode_loop data maxSize (offset + 1) result1 (shift + 7)
  else (result, offset)
termination_by maxSize - offset
decreasing_by omega

/-- `vbyte_decode_uint32` (src/backend/searcher.cpp, lines 17–34).
The C function takes the cursor by reference; here the updated cursor is
returned as the second component. -/
def vbyte_decode_uint32 (data : List Nat) (maxSize offset : Nat) : Nat × Nat :=
  vbyte_decode_loop data maxSize offset 0 0

/-- Decoding `k` consecutive values with a single shared cursor, as the
posting decoder does (src/backend/searcher.cpp, lines 330–347). -/
def vbyte_decode_seq (data : List Nat) (maxSize : Nat) :
    Nat → Nat → List Nat
  | _, 0 => []
  | offset, k + 1 =>
    let r := vbyte_decode_uint32 data maxSize offset
    r.1 :: vbyte_decode_seq data maxSize r.2 k

/- ==================== Lexicon and posting decoder ==================== -/

/-- `LexiconEntry` (src/backend/searcher.cpp, lines 37–45). -/
structure LexiconEntry where
  wordID : Nat
  term : String
  doc_freq : Nat
  term_freq : Nat
  offset : Nat
  bytes : Nat
  barrel_id : Nat
deriving Repr, DecidableEq

/-- `PostingEntry` (src/backend/searcher.cpp, lines 47–51). -/
structure PostingEntry where
  docid : Nat
  term_freq : Nat
  positions : List Nat
deriving Repr, DecidableEq

/-- The inner position loop of `decode_postings_list`
(src/backend/searcher.cpp, lines 341–347):
`for (j = 0; j < tf && offset < max_offset; j++)` reading one delta per
iteration, accumulating `pos = last_pos + pos_delta` in `uint32_t`.
Returns the positions read and the final cursor. -/
def decode_positions (data : List Nat) (maxOffset : Nat) :
    Nat → Nat → Nat → List Nat × Nat
  | 0, offset, _ => ([], offset)
  | tf + 1, offset, lastPos =>
    if offset < maxOffset then
      let d := vbyte_decode_uint32 data maxOffset offset
      let pos := (lastPos + d.1) % 2 ^ 32
      let rest := decode_positions data maxOffset tf d.2 pos
      (pos :: rest.1, rest.2)
    else ([], offset)

/-- The outer posting loop of `decode_postings_list`
(src/backend/searcher.cpp, lines 332–350):
`for (i = 0; i < doc_count && offset < max_offset; i++)`, reading
`doc_delta`, `tf`, then `tf` position deltas, with `docid = last_docid +
doc_delta` in `uint32_t`. -/
def decode_postings_loop (data : List Nat) (maxOffset : Nat) :
    Nat → Nat → Nat → List PostingEntry
  | 0, _, _ => []
  | c + 1, offset, lastDocid =>
    if offset < maxOffset then
      let dd := vbyte_decode_uint32 data maxOffset offset
      let docid := (lastDocid + dd.1) % 2 ^ 32
      let tfr := vbyte_decode_uint32 data maxOffset dd.2
      let ps := decode_positions data maxOffset tfr.1 tfr.2 0
      { docid := docid, term_freq := tfr.1, positions := ps.1 } ::
        decode_postings_loop data maxOffset c ps.2 docid
    else []

/-- `decode_postings_list` (src/backend/searcher.cpp, lines 304–353).
The barrel byte array (`barrel_data[entry.barrel_id]`, already loaded) is
passed as `data`. The two bounds checks and the `doc_count` read mirror
lines 317–330; `load_barrel_if_needed` is I/O and is modeled by passing
the loaded array. -/
def decode_postings_list (entry : LexiconEntry) (data : List Nat) :
    List PostingEntry :=
  if entry.offset ≥ data.length then []
  else if entry.offset + entry.bytes > data.length then []
  else
    let maxOffset := entry.offset + entry.bytes
    let dc := vbyte_decode_uint32 data maxOffset entry.offset
    decode_postings_loop data maxOffset dc.1 dc.2 0

/- ==================== Doc-ID registry ==================== -/

/-- The global registry state of src/indexer.cpp, lines 91–93:
`docid_to_int` (an `unordered_map`, modeled as the association list of its
entries) and `next_internal_docid` (initialized to 1). -/
structure DocidState where
  docid_to_int : List (String × Nat)
  next_internal_docid : Nat
deriving Repr, DecidableEq

/-- `get_or_assign_docint` (src/indexer.cpp, lines 95–103): if `orig` is
already mapped its id is returned and the state is unchanged; otherwise the
next id is assigned and the counter incremented. (`int_to_docid` is the
inverse vector, not needed by any claim.) -/
def get_or_assign_docint (orig : String) (st : DocidState) : Nat × DocidState :=
  match st.docid_to_int.find? (fun p => p.1 == orig) with
  | some p => (p.2, st)
  | none =>
    (st.next_internal_docid,
      { docid_to_int := (orig, st.next_internal_docid) :: st.docid_to_int,
        next_internal_docid := st.next_internal_docid + 1 })

/-- Assigning ids to a whole build stream of external ids, in order
(the per-line call at src/indexer.cpp line 517). -/
def assign_stream : List String → DocidState → List Nat × DocidState
  | [], st => ([], st)
  | e :: es, st =>
    let r := get_or_assign_docint e st
    let rest := assign_stream es r.2
    (r.1 :: rest.1, rest.2)

/- ==================== Block flush ==================== -/

/-- A posting accumulated by the block builder (src/indexer.cpp, lines 82–85). -/
structure IndexPosting where
  docid : Nat
  positions : List Nat
deriving Repr, DecidableEq

/-- Rendering of one posting inside an inverted-block line:
`docid ':' pos ',' pos ...` (src/indexer.cpp, lines 162–169). -/
def render_posting (p : IndexPosting) : String :=
  toString p.docid ++ ":" ++ String.intercalate "," (p.positions.map toString)

/-- Rendering of one inverted-block line: `term '\t' posting ';' posting ...`
(src/indexer.cpp, lines 157–171). -/
def render_inv_line (term : String) (plist : List IndexPosting) : String :=
  term ++ "\t" ++ String.intercalate ";" (plist.map render_posting)

/-- `flush_block_to_disk`, inverted-file part (src/indexer.cpp, lines
150–173). The C code iterates `for (const auto &it : dict)` over the
`unordered_map` WITHOUT sorting; the map is therefore passed here as the
association list of its entries in iteration order, and one line is written
per entry in exactly that order. -/
def flush_block_to_disk (dict : List (String × List IndexPosting)) :
    List String :=
  dict.map (fun tp => render_inv_line tp.1 tp.2)

/- ==================== Block merger ==================== -/

/-- One parsed line of an inverted block file, i.e. the term before the tab
and the `docid:pos,pos;docid:pos,...` groups after it, in line order. The
parser in `merge_blocks_into_barrels` (src/indexer.cpp, lines 289–318)
recovers exactly these fields from every line written by
`flush_block_to_disk`, so block files are modeled in parsed form. -/
structure BlockLine where
  term : String
  postings : List (Nat × List Nat)
deriving Repr, DecidableEq

/-- The minimum current term over all still-valid readers (src/indexer.cpp,
lines 269–274): the first valid reader seeds the minimum and a strictly
smaller term replaces it, so the value is the least head term. -/
def min_head_term : List (List BlockLine) → Option String
  | [] => none
  | [] :: rest => min_head_term rest
  | (l :: _) :: rest =>
    match min_head_term rest with
    | none => some l.term
    | some m => if l.term < m then some l.term else some m

/-- The lines carrying the minimum term, collected in reader order
(src/indexer.cpp, lines 277–284). -/
def collect_min_lines (readers : List (List BlockLine)) (m : String) :
    List BlockLine :=
  readers.filterMap (fun r =>
    match r with
    | [] => none
    | l :: _ => if l.term = m then some l else none)

/-- Advancing every reader whose current term is the minimum
(the `read_line_state` call at src/indexer.cpp line 282). -/
def advance_readers (readers : List (List BlockLine)) (m : String) :
    List (List BlockLine) :=
  readers.map (fun r =>
    match r with
    | [] => []
    | l :: rest => if l.term = m then rest else l :: rest)

/-- Insertion into the `merged` map (`merged[docid]` followed by
`v.insert(v.end, ...)`, src/indexer.cpp, lines 314–315), modeled on the
association list of the map's entries: append to the existing entry or
create a new one. -/
def upsert_positions (acc : List (Nat × List Nat)) (d : Nat) (ps : List Nat) :
    List (Nat × List Nat) :=
  match acc with
  | [] => [(d, ps)]
  | (d0, ps0) :: rest =>
    if d0 = d then (d0, ps0 ++ ps) :: rest
    else (d0, ps0) :: upsert_positions rest d ps

/-- The `merged` map built from all block lines of the minimum term
(src/indexer.cpp, lines 287–319). -/
def gather_merged (lines : List BlockLine) : List (Nat × List Nat) :=
  lines.foldl (fun acc l =>
    l.postings.foldl (fun acc2 dp => upsert_positions acc2 dp.1 dp.2) acc) []

/-- Extraction of the posting vector from `merged` (src/indexer.cpp, lines
321–328): every per-document position list is sorted ascending (`sort(vec)`;
there is no deduplication), and the vector is sorted by ascending doc id
(`sort(postings, a.first < b.first)`; keys are distinct so the order is
uniquely determined and a stable merge sort realizes it). -/
def merged_postings (lines : List BlockLine) : List (Nat × List Nat) :=
  (((gather_merged lines).map
      (fun dp => (dp.1, dp.2.mergeSort (fun a b => a ≤ b)))).mergeSort
    (fun a b => a.1 ≤ b.1))

/-- `term_freq` counts every parsed position token (src/indexer.cpp,
line 309). -/
def lines_term_freq (lines : List BlockLine) : Nat :=
  (lines.map (fun l => (l.postings.map (fun dp => dp.2.length)).sum)).sum

/-- 32-bit wrapping subtraction, the meaning of `a - b` on `uint32_t`
values as used for deltas (src/indexer.cpp, lines 338 and 345). -/
def u32_sub (a b : Nat) : Nat :=
  (a % 2 ^ 32 + (2 ^ 32 - b % 2 ^ 32)) % 2 ^ 32

/-- Delta encoding of the postings of one term (src/indexer.cpp, lines
336–349): per posting `vbyte(doc_delta)`, `vbyte(tf)`, then one
`vbyte(pos_delta)` per position. -/
def encode_postings_tail : List (Nat × List Nat) → Nat → List Nat
  | [], _ => []
  | (d, ps) :: rest, lastDoc =>
    vbyte_encode_uint32 (u32_sub d lastDoc) ++
    vbyte_encode_uint32 (ps.length % 2 ^ 32) ++
    (vbyte_encode_list (deltas ps 0)) ++
    encode_postings_tail rest d
where
  /-- Position deltas against the running previous position
  (src/indexer.cpp, lines 343–348). -/
  deltas : List Nat → Nat → List Nat
    | [], _ => []
    | p :: ps, lastPos => u32_sub p lastPos :: deltas ps p

/-- Full encoding of one term's posting list: `vbyte(doc_count)` followed by
the per-posting encodings (src/indexer.cpp, lines 331–349). -/
def encode_postings (postings : List (Nat × List Nat)) : List Nat :=
  vbyte_encode_uint32 (postings.length % 2 ^ 32) ++ encode_postings_tail postings 0

/-- `NUM_BARRELS` (src/indexer.cpp, line 47). -/
def NUM_BARRELS : Nat := 4

/-- Total number of unread block lines, the termination measure of the
k-way merge loop. -/
def total_lines (readers : List (List BlockLine)) : Nat :=
  (readers.map List.length).sum

/-- The main merge loop of `merge_blocks_into_barrels` (src/indexer.cpp,
lines 268–367): while some reader is valid, take the minimum current term,
gather and merge its lines, encode, append to barrel `hashFn term % 4`
(`get_barrel_id`, lines 50–52; `std::hash` is implementation-defined and is
passed as the parameter `hashFn`), and emit the lexicon entry with the next
sequential word id (`++global_wordid`, line 357). `offsets` tracks
`tellp()` of the four barrel files. Every iteration advances at least one
reader past one line, so the loop runs at most `total_lines` times; `fuel`
is the structural bound on iterations and is never exhausted when the
caller passes `total_lines readers + 1`. -/
def merge_loop (hashFn : String → Nat) (fuel : Nat)
    (readers : List (List BlockLine)) (wordid : Nat) (offsets : List Nat) :
    List LexiconEntry :=
  match fuel with
  | 0 => []
  | fuel + 1 =>
    match min_head_term readers with
    | none => []
    | some m =>
      let lines := collect_min_lines readers m
      let postings := merged_postings lines
      let encoded := encode_postings postings
      let b := hashFn m % NUM_BARRELS
      let off := offsets.getD b 0
      { wordID := wordid + 1, term := m, doc_freq := postings.length,
        term_freq := lines_term_freq lines, offset := off,
        bytes := encoded.length, barrel_id := b } ::
        merge_loop hashFn fuel (advance_readers readers m) (wordid + 1)
          (offsets.set b (off + encoded.length))

/-- `merge_blocks_into_barrels` (src/indexer.cpp, lines 217–394), restricted
to its observable output, the lexicon. Each block file is passed in parsed
form; `global_wordid` starts at 0 and all four barrel files start empty. -/
def merge_blocks_into_barrels (hashFn : String → Nat)
    (blocks : List (List BlockLine)) : List LexiconEntry :=
  merge_loop hashFn (total_lines blocks + 1) blocks 0 [0, 0, 0, 0]

/- ==================== Query engine ==================== -/

/-- `normalize_term` (src/backend/searcher.cpp, lines 398–402):
per-character `tolower`. -/
def normalize_term (t : String) : String :=
  t.map Char.toLower

/-- The loaded query-time state (the globals of src/backend/searcher.cpp,
lines 61–71): the lexicon hash map as an association list and the
`NUM_BARRELS` barrel byte arrays (all loaded). -/
structure SearchIndex where
  lexicon : List (String × LexiconEntry)
  barrels : List (List Nat)

/-- `lexicon.find(norm)` (src/backend/searcher.cpp, line 440). -/
def lexicon_find (idx : SearchIndex) (t : String) : Option LexiconEntry :=
  (idx.lexicon.find? (fun p => p.1 == t)).map Prod.snd

/-- `decode_postings_list(entry)` reading from the entry's barrel
(src/backend/searcher.cpp, lines 304–315). -/
def get_postings (idx : SearchIndex) (e : LexiconEntry) : List PostingEntry :=
  decode_postings_list e (idx.barrels.getD e.barrel_id [])

/-- The found lexicon entries of a query, dropping missing terms
(src/backend/searcher.cpp, lines 438–447: normalize, look up, keep hits). -/
def found_entries (idx : SearchIndex) (terms : List String) :
    List LexiconEntry :=
  terms.filterMap (fun t => lexicon_find idx (normalize_term t))

/-- Set intersection as computed by the AND / phrase loops
(src/backend/searcher.cpp, lines 577–584 and 690–698): keep the members of
the accumulator that occur in the next document set. -/
def intersect_docs (a b : List Nat) : List Nat :=
  a.filter (fun d => b.contains d)

/-- The AND intersection loop (src/backend/searcher.cpp, lines 576–590),
including the early `return {}` when an intermediate intersection is
empty. -/
def fold_intersect : List Nat → List (List Nat) → List Nat
  | acc, [] => acc
  | acc, s :: rest =>
    let i := intersect_docs acc s
    if i.isEmpty then [] else fold_intersect i rest

/-- The doc ids produced by `search_query_ranked` (OR semantics,
src/backend/searcher.cpp, lines 433–525): every decoded posting of every
found entry contributes its doc id to the `scores` map; missing terms are
dropped and an all-missing query returns empty. The ranked output is a
permutation (possibly truncated to `top_k`) of these ids, so with `top_k`
at least the number of matches the returned doc-id set is exactly this
list's membership. -/
def search_query_ranked_docids (idx : SearchIndex) (terms : List String) :
    List Nat :=
  let entries := found_entries idx terms
  if entries.isEmpty then []
  else (entries.map (fun e => (get_postings idx e).map (fun p => p.docid))).flatten

/-- The doc ids produced by `search_query_and_ranked`
(src/backend/searcher.cpp, lines 527–652): empty if any term is missing
(`entries.size() != query_terms.size()`, line 543); otherwise the entries
are sorted by ascending document frequency (lines 548–560, realized by a
merge sort consistent with the comparator) and their document sets are
intersected. -/
def search_query_and_ranked_docids (idx : SearchIndex) (terms : List String) :
    List Nat :=
  let entries := found_entries idx terms
  if entries.isEmpty || entries.length != terms.length then []
  else
    let ordered := entries.mergeSort (fun a b => a.doc_freq ≤ b.doc_freq)
    match ordered.map (fun e => (get_postings idx e).map (fun p => p.docid)) with
    | [] => []
    | s0 :: rest => fold_intersect s0 rest

/-- `posting_map[docid]` (src/backend/searcher.cpp, lines 678–682): the map
is filled by iterating the posting list in order, a later posting with the
same doc id overwriting an earlier one, so the lookup returns the last
matching posting. -/
def posting_for (ps : List PostingEntry) (d : Nat) : Option PostingEntry :=
  ps.reverse.find? (fun p => p.docid == d)

/-- The per-document phrase test (src/backend/searcher.cpp, lines 703–729):
for each start position of the first term's posting, every later term `i`
must contain `start_pos + i` (a `uint32_t` sum) in its positions, checked
with linear `std::find`. -/
def phrase_check_doc (all_postings : List (List PostingEntry)) (d : Nat) :
    Bool :=
  match all_postings with
  | [] => false
  | ps0 :: rest =>
    match posting_for ps0 d with
    | none => false
    | some fp =>
      fp.positions.any (fun sp =>
        (List.range rest.length).all (fun i =>
          match posting_for (rest.getD i []) d with
          | none => false
          | some p => p.positions.contains ((sp + (i + 1)) % 2 ^ 32)))

/-- The doc ids produced by `search_phrase_ranked`
(src/backend/searcher.cpp, lines 654–767): empty for an empty query or when
any term is missing (the early `return {}` per missing term is modeled by
the length comparison); otherwise candidates are the intersection of all
terms' document sets (lines 685–698, with no early exit) filtered by the
positional phrase test. -/
def search_phrase_ranked_docids (idx : SearchIndex) (terms : List String) :
    List Nat :=
  if terms.isEmpty then []
  else
    let entries := found_entries idx terms
    if entries.length != terms.length then []
    else
      let all_postings := entries.map (get_postings idx)
      let cands := ((all_postings.drop 1).map
          (fun ps => ps.map (fun p => p.docid))).foldl intersect_docs
        ((all_postings.headD []).map (fun p => p.docid))
      cands.filter (phrase_check_doc all_postings)

/- ==================== Result ranking ==================== -/

/-- A scored search result as it enters the final sort
(src/backend/searcher.cpp, lines 421–430 and 503–513). Only `docid` and
`final_score` matter to the ordering; the `double` score is abstracted to
`ℚ`, which preserves exactly the comparator's order behaviour. -/
structure RankedResult where
  docid : Nat
  final_score : ℚ
deriving Repr, DecidableEq

/-- The final sort-and-truncate stage shared by all three search functions
(src/backend/searcher.cpp, lines 515–524, 642–651, 757–766, and the same
code at src/searcher.cpp, lines 469–484): `std::sort` with comparator
`a.final_score > b.final_score` — equivalently a sort by non-increasing
score, realized here by a stable merge sort on the hash-map iteration
order — followed by `resize(top_k)` when larger. -/
def sort_results (results : List RankedResult) (top_k : Nat) :
    List RankedResult :=
  (results.mergeSort (fun a b => b.final_score ≤ a.final_score)).take top_k

/- ==================== Autocomplete ==================== -/

/-- `TermInfo` (src/backend/autocomplete_builder.cpp, lines 11–17).
`popularity_score` is `log(1+df)*log(1+tf)` in `double`; only its ordering
is relevant to any claim, so it is carried abstractly as `ℚ`. -/
structure TermInfo where
  term : String
  word_id : Nat
  doc_freq : Nat
  term_freq : Nat
  popularity_score : ℚ
deriving Repr, DecidableEq

/-- `Suggestion` (src/backend/autocomplete_server.cpp, lines 10–16). -/
structure Suggestion where
  term : String
  popularity : ℚ
  word_id : Nat
  doc_freq : Nat
  term_freq : Nat
deriving Repr, DecidableEq

/-- Lowercasing used on generated key strings and on queries
(src/backend/autocomplete_builder.cpp, lines 81–82;
src/backend/autocomplete_server.cpp, lines 98–101). -/
def lower_string (s : String) : String :=
  s.map Char.toLower

/-- Whether a term contributes a candidate under key `p`
(src/backend/autocomplete_builder.cpp, lines 69–93): terms shorter than 2
are skipped, and every lowercased initial segment of length
`2 .. min (length term) maxLen` becomes a key. Lowercasing is
per-character, so a key produced from `term` with segment length `len` has
length `len`. -/
def contributes (maxLen : Nat) (p : String) (info : TermInfo) : Bool :=
  decide (2 ≤ info.term.length) && decide (2 ≤ p.length) &&
  decide (p.length ≤ min info.term.length maxLen) &&
  (lower_string (info.term.take p.length) == p)

/-- The candidate tuple pushed for a key
(src/backend/autocomplete_builder.cpp, lines 84–90). -/
def to_suggestion (info : TermInfo) : Suggestion :=
  { term := info.term, popularity := info.popularity_score,
    word_id := info.word_id, doc_freq := info.doc_freq,
    term_freq := info.term_freq }

/-- `build_autocomplete_index` (src/backend/autocomplete_builder.cpp, lines
58–117), viewed pointwise: the value stored for key `p` is the list of
candidates contributed in term order, sorted by descending popularity
(`sort` with comparator `get<0>(a) > get<0>(b)`, realized by a merge sort
consistent with it) and truncated to `topK` (`resize`, lines 112–114).
A key no term contributes to is absent from the map; its lookup misses and
yields the empty list, which this pointwise view returns as well. -/
def build_autocomplete_index (terms : List TermInfo) (maxLen topK : Nat)
    (p : String) : List Suggestion :=
  (((terms.filter (contributes maxLen p)).map to_suggestion).mergeSort
    (fun a b => b.popularity ≤ a.popularity)).take topK

/-- `AutocompleteIndex::get_suggestions`
(src/backend/autocomplete_server.cpp, lines 94–126): lowercase the query,
require at least 2 characters, truncate to 15, look up, and return the
first `min max_results (length)` stored suggestions. -/
def get_suggestions (table : String → List Suggestion) (query : String)
    (max_results : Nat) : List Suggestion :=
  let nq := lower_string query
  if nq.length < 2 then []
  else
    let nq2 := if nq.length > 15 then nq.take 15 else nq
    let all := table nq2
    all.take (min max_results all.length)

/- ==================== Helper lemmas: bit arithmetic ==================== -/

/-- Bitwise or of numbers with disjoint bits is addition. -/
theorem lor_eq_add_of_and_eq_zero (r m : Nat) (h : r &&& m = 0) :
    r ||| m = r + m := by
  induction r using Nat.strong_induction_on generalizing m with
  | _ r ih =>
    rcases Nat.eq_zero_or_pos r with hr | hr
    · simp [hr]
    rcases Nat.eq_zero_or_pos m with hm | hm
    · simp [hm]
    have hlor : r ||| m = Nat.bit (r.bodd || m.bodd) (r / 2 ||| m / 2) :=
      Nat.bitwise_of_ne_zero (Nat.pos_iff_ne_zero.mp hr) (Nat.pos_iff_ne_zero.mp hm)
    have hland : r &&& m = Nat.bit (r.bodd && m.bodd) (r / 2 &&& m / 2) :=
      Nat.bitwise_of_ne_zero (Nat.pos_iff_ne_zero.mp hr) (Nat.pos_iff_ne_zero.mp hm)
    rw [hland, Nat.bit_eq_zero_iff] at h
    obtain ⟨h1, h2⟩ := h
    have ihh := ih (r / 2) (Nat.div_lt_self hr one_lt_two) (m / 2) h1
    rw [hlor, ihh]
    have hr2 := Nat.bodd_add_div2 r
    have hm2 := Nat.bodd_add_div2 m
    simp only [Nat.div2_val] at hr2 hm2
    cases hbr : r.bodd <;> cases hbm : m.bodd <;>
      simp_all [Nat.bit] <;> omega

/-- A value below `2 ^ s` shares no bits with anything shifted left by `s`. -/
theorem and_shiftLeft_eq_zero (r c s : Nat) (hr : r < 2 ^ s) :
    r &&& (c <<< s) = 0 := by
  apply Nat.eq_of_testBit_eq
  intro i
  simp only [Nat.testBit_land, Nat.testBit_shiftLeft, Nat.zero_testBit]
  rcases lt_or_le i s with hi | hi
  · simp [Nat.not_le.mpr hi]
  · have hb : r.testBit i = false :=
      Nat.testBit_lt_two_pow (lt_of_lt_of_le hr (Nat.pow_le_pow_right (by norm_num) hi))
    simp [hb]

/-- Accumulating a shifted group into a register whose occupied bits lie
below the shift amount is plain addition. -/
theorem lor_shiftLeft_eq_add (r c s : Nat) (hr : r < 2 ^ s) :
    r ||| (c <<< s) = r + c * 2 ^ s := by
  rw [lor_eq_add_of_and_eq_zero _ _ (and_shiftLeft_eq_zero r c s hr), Nat.shiftLeft_eq]

/-- The terminator-bit test `byte & 0x80` in arithmetic form. -/
theorem and_128_eq (b : Nat) : b &&& 128 = b / 128 % 2 * 128 := by
  have h1 : b &&& 128 = (b.testBit 7).toNat * 128 := by
    have h2 := Nat.and_two_pow b 7
    norm_num at h2
    exact h2
  rw [h1, Nat.testBit_to_div_mod]
  norm_num
  rcases Nat.mod_two_eq_zero_or_one (b / 128) with h | h <;> simp [h]

/-- The payload mask `byte & 0x7F` in arithmetic form. -/
theorem and_127_eq (b : Nat) : b &&& 127 = b % 128 := by
  rw [show (127 : Nat) = 2 ^ 7 - 1 from rfl, Nat.and_pow_two_sub_one_eq_mod]

/- ==================== Helper lemmas: list reads ==================== -/

/-- Reading just past a known front segment. -/
theorem getD_append_cons (pre : List Nat) (x : Nat) (l : List Nat) :
    (pre ++ x :: l).getD pre.length 0 = x := by
  induction pre with
  | nil => rfl
  | cons a t ih => simpa using ih

/-- Reads strictly below the cut are unaffected by `take`. -/
theorem getD_take_eq (data : List Nat) (n i : Nat) (h : i < n) :
    (data.take n).getD i 0 = data.getD i 0 := by
  induction data generalizing n i with
  | nil => simp
  | cons a t ih =>
    cases n with
    | zero => omega
    | succ n =>
      cases i with
      | zero => simp
      | succ i => simpa using ih n i (by omega)

/- ==================== Codec unfolding lemmas ==================== -/

/-- One decode-loop step while the cursor is inside the window. -/
theorem vbyte_decode_loop_step (data : List Nat) (M o r s : Nat) (h : o < M) :
    vbyte_decode_loop data M o r s =
      (if data.getD o 0 % 256 &&& 128 ≠ 0 then
        ((r ||| ((data.getD o 0 % 256 &&& 127) <<< s)) % 2 ^ 32, o + 1)
      else if s + 7 ≥ 32 then (0, o + 1)
      else vbyte_decode_loop data M (o + 1)
        ((r ||| ((data.getD o 0 % 256) <<< s)) % 2 ^ 32) (s + 7)) := by
  rw [vbyte_decode_loop, dif_pos h]

/-- The decode loop halts at the end of the window, returning the
accumulated value. -/
theorem vbyte_decode_loop_stop (data : List Nat) (M o r s : Nat) (h : ¬ o < M) :
    vbyte_decode_loop data M o r s = (r, o) := by
  rw [vbyte_decode_loop, dif_neg h]

/-- The encoder on a final (single-group) value. -/
theorem vbyte_encode_last (v : Nat) (h : v / 128 = 0) :
    vbyte_encode_uint32 v = [v % 128 + 128] := by
  rw [vbyte_encode_uint32, dif_pos h]
  have hlt : v % 128 < 2 ^ 7 := by
    have := Nat.mod_lt v (show 0 < 128 by norm_num)
    omega
  have h2 := lor_shiftLeft_eq_add (v % 128) 1 7 hlt
  simp only [show (1 : Nat) <<< 7 = 128 from rfl, one_mul,
    show (2 : Nat) ^ 7 = 128 from rfl] at h2
  rw [h2]

/-- The encoder on a non-final group. -/
theorem vbyte_encode_step (v : Nat) (h : ¬ v / 128 = 0) :
    vbyte_encode_uint32 v = v % 128 :: vbyte_encode_uint32 (v / 128) := by
  rw [vbyte_encode_uint32, dif_neg h]
/- ==================== C1 core lemma ==================== -/

/-- Decoding an encoded value embedded at cursor position `pre.length`
returns the value merged into the accumulator and leaves the cursor just
past the encoding, for any accumulator state reachable by the loop. -/
theorem vbyte_decode_loop_encode (v : Nat) :
    ∀ (r s : Nat) (pre rest : List Nat) (M : Nat),
      pre.length + (vbyte_encode_uint32 v).length ≤ M →
      r < 2 ^ s → v < 2 ^ (32 - s) → s ≤ 32 →
      vbyte_decode_loop (pre ++ vbyte_encode_uint32 v ++ rest) M pre.length r s
        = (r + v * 2 ^ s, pre.length + (vbyte_encode_uint32 v).length) := by
  induction v using Nat.strong_induction_on with
  | _ v ih =>
    intro r s pre rest M hM hr hv hs
    have hpow : 2 ^ s * 2 ^ (32 - s) = 2 ^ 32 := by
      rw [← pow_add]
      congr 1
      omega
    have hps : (0 : Nat) < 2 ^ s := Nat.two_pow_pos s
    by_cases hdiv : v / 128 = 0
    · have hv128 : v < 128 := by
        rcases Nat.lt_or_ge v 128 with hl | hg
        · exact hl
        · exact absurd hdiv (by
            have h1 : 1 ≤ v / 128 := (Nat.one_le_div_iff (by norm_num)).mpr hg
            omega)
      have hE : vbyte_encode_uint32 v = [v % 128 + 128] := vbyte_encode_last v hdiv
      rw [hE] at hM ⊢
      simp only [List.length_cons, List.length_nil] at hM
      have hdata : pre ++ [v % 128 + 128] ++ rest = pre ++ (v % 128 + 128) :: rest := by
        simp
      rw [hdata, vbyte_decode_loop_step _ _ _ _ _ (by omega), getD_append_cons]
      have hbyte : (v % 128 + 128) % 256 = v % 128 + 128 := by omega
      rw [hbyte]
      have hterm : (v % 128 + 128) &&& 128 ≠ 0 := by
        rw [and_128_eq]
        omega
      rw [if_pos hterm, and_127_eq]
      have hmask : (v % 128 + 128) % 128 = v := by omega
      rw [hmask, lor_shiftLeft_eq_add r v s hr]
      have hpow2 : 2 ^ (32 - s) * 2 ^ s = 2 ^ 32 := by
        rw [Nat.mul_comm]
        exact hpow
      have hub : v * 2 ^ s + 2 ^ s ≤ 2 ^ 32 := by
        have h3 : (v + 1) * 2 ^ s ≤ 2 ^ (32 - s) * 2 ^ s :=
          Nat.mul_le_mul_right _ (by omega)
        rw [Nat.add_mul, one_mul] at h3
        omega
      have hlt32 : r + v * 2 ^ s < 2 ^ 32 := by omega
      rw [Nat.mod_eq_of_lt hlt32]
      simp
    · have hge : 128 ≤ v := by
        rcases Nat.lt_or_ge v 128 with hl | hg
        · exact absurd (Nat.div_eq_of_lt hl) hdiv
        · exact hg
      have hE : vbyte_encode_uint32 v = v % 128 :: vbyte_encode_uint32 (v / 128) :=
        vbyte_encode_step v hdiv
      have hslt : s < 25 := by
        have h7 : (2 : Nat) ^ 7 < 2 ^ (32 - s) := by
          have : (2 : Nat) ^ 7 ≤ v := by norm_num; omega
          omega
        have := (Nat.pow_lt_pow_iff_right (by norm_num : 1 < 2)).mp h7
        omega
      rw [hE] at hM ⊢
      simp only [List.length_cons] at hM
      have hdata : pre ++ (v % 128 :: vbyte_encode_uint32 (v / 128)) ++ rest
          = pre ++ (v % 128) :: (vbyte_encode_uint32 (v / 128) ++ rest) := by
        simp
      rw [hdata, vbyte_decode_loop_step _ _ _ _ _ (by omega), getD_append_cons]
      have hbyte : v % 128 % 256 = v % 128 := by omega
      rw [hbyte]
      have hnoterm : ¬ (v % 128 &&& 128 ≠ 0) := by
        rw [and_128_eq]
        omega
      rw [if_neg hnoterm, if_neg (by omega : ¬ s + 7 ≥ 32)]
      have hfit : r + v % 128 * 2 ^ s < 2 ^ (s + 7) := by
        have h1 : v % 128 * 2 ^ s ≤ 127 * 2 ^ s :=
          Nat.mul_le_mul_right _ (by omega)
        have h2 : 2 ^ (s + 7) = 128 * 2 ^ s := by
          rw [pow_add]
          ring
        omega
      have hfit32 : r + v % 128 * 2 ^ s < 2 ^ 32 := by
        have h3 : (2 : Nat) ^ (s + 7) ≤ 2 ^ 32 :=
          Nat.pow_le_pow_right (by norm_num) (by omega)
        omega
      rw [lor_shiftLeft_eq_add r (v % 128) s hr, Nat.mod_eq_of_lt hfit32]
      have hpre : pre.length + 1 = (pre ++ [v % 128]).length := by simp
      have hassoc : pre ++ (v % 128) :: (vbyte_encode_uint32 (v / 128) ++ rest)
          = (pre ++ [v % 128]) ++ vbyte_encode_uint32 (v / 128) ++ rest := by
        simp
      have hv2 : v / 128 < 2 ^ (32 - (s + 7)) := by
        rw [Nat.div_lt_iff_lt_mul (by norm_num : (0 : Nat) < 128)]
        have h4 : 2 ^ (32 - (s + 7)) * 128 = 2 ^ (32 - s) := by
          rw [show (128 : Nat) = 2 ^ 7 from rfl, ← pow_add]
          congr 1
          omega
        omega
      have hrec := ih (v / 128) (Nat.div_lt_self (by omega) (by norm_num))
        (r + v % 128 * 2 ^ s) (s + 7) (pre ++ [v % 128])
        rest M (by simp; omega) hfit hv2 (by omega)
      rw [hassoc, hpre, hrec]
      have hval : r + v % 128 * 2 ^ s + v / 128 * 2 ^ (s + 7) = r + v * 2 ^ s := by
        have hvm := Nat.div_add_mod v 128
        rw [pow_add]
        nlinarith [hvm]
      rw [hval]
      simp
      omega

/-- Decoding a concatenated run of encodings with one shared cursor
recovers the values, for any cursor start position. -/
theorem vbyte_decode_seq_encode (ns : List Nat) :
    ∀ (pre rest : List Nat) (M : Nat),
      pre.length + (vbyte_encode_list ns).length ≤ M →
      (∀ n ∈ ns, n < 2 ^ 32) →
      vbyte_decode_seq (pre ++ vbyte_encode_list ns ++ rest) M pre.length
        ns.length = ns := by
  induction ns with
  | nil =>
    intro pre rest M hM hall
    rfl
  | cons n ns ih =>
    intro pre rest M hM hall
    have hEL : vbyte_encode_list (n :: ns)
        = vbyte_encode_uint32 n ++ vbyte_encode_list ns := by
      simp [vbyte_encode_list]
    rw [hEL] at hM ⊢
    simp only [List.length_append] at hM
    have hassoc : pre ++ (vbyte_encode_uint32 n ++ vbyte_encode_list ns) ++ rest
        = pre ++ vbyte_encode_uint32 n ++ (vbyte_encode_list ns ++ rest) := by
      simp
    have hn : n < 2 ^ 32 := hall n (by simp)
    have hdec := vbyte_decode_loop_encode n 0 0 pre
      (vbyte_encode_list ns ++ rest) M (by omega) (by norm_num)
      (by simpa using hn) (by norm_num)
    simp only [List.length_cons, vbyte_decode_seq, vbyte_decode_uint32]
    rw [hassoc, hdec]
    simp only [Nat.zero_add, pow_zero, Nat.mul_one]
    have hassoc2 : pre ++ vbyte_encode_uint32 n ++ (vbyte_encode_list ns ++ rest)
        = (pre ++ vbyte_encode_uint32 n) ++ vbyte_encode_list ns ++ rest := by
      simp
    have hpre2 : pre.length + (vbyte_encode_uint32 n).length
        = (pre ++ vbyte_encode_uint32 n).length := by
      simp
    rw [hassoc2, hpre2, ih (pre ++ vbyte_encode_uint32 n) rest M
      (by simp; omega) (fun m hm => hall m (by simp [hm]))]

/-- C1: for every unsigned 32-bit integer `n`, decoding the variable-byte
encoding of `n` returns `n` (and consumes exactly the encoding); and
decoding the concatenation of the encodings of any sequence of 32-bit
values with a single shared cursor recovers exactly the original
sequence. -/
theorem C1_vbyte_roundtrip :
    (∀ n, n < 2 ^ 32 →
      vbyte_decode_uint32 (vbyte_encode_uint32 n)
        (vbyte_encode_uint32 n).length 0
        = (n, (vbyte_encode_uint32 n).length)) ∧
    (∀ ns : List Nat, (∀ n ∈ ns, n < 2 ^ 32) →
      vbyte_decode_seq (vbyte_encode_list ns)
        (vbyte_encode_list ns).length 0 ns.length = ns) := by
  constructor
  · intro n hn
    have h := vbyte_decode_loop_encode n 0 0 [] []
      (vbyte_encode_uint32 n).length (by simp) (by norm_num)
      (by simpa using hn) (by norm_num)
    simpa [vbyte_decode_uint32] using h
  · intro ns hall
    have h := vbyte_decode_seq_encode ns [] []
      (vbyte_encode_list ns).length (by simp) hall
    simpa using h

/-- Witness for C1 at `n = 300` and `ns = [1, 300, 2 ^ 32 - 1]`. -/
theorem C1_vbyte_roundtrip_witness :
    vbyte_decode_uint32 (vbyte_encode_uint32 300)
      (vbyte_encode_uint32 300).length 0
      = (300, (vbyte_encode_uint32 300).length) ∧
    vbyte_decode_seq (vbyte_encode_list [1, 300, 4294967295])
      (vbyte_encode_list [1, 300, 4294967295]).length 0
      ([1, 300, 4294967295] : List Nat).length = [1, 300, 4294967295] :=
  ⟨C1_vbyte_roundtrip.1 300 (by norm_num),
   C1_vbyte_roundtrip.2 [1, 300, 4294967295] (by decide)⟩

unseal vbyte_decode_loop in
/-- C7 counterexample: the decoder never reports a `CorruptData` failure.
On `[1]` the buffer ends before any terminator byte, yet the decoder
returns the partial value `1` with the cursor at the end; on five
continuation bytes it returns the value `0` with the cursor after the
fifth byte, never consuming more than five and never signalling an
error (a terminator at position 5 is left unread). -/
theorem C7_decode_no_failure_counterexample :
    vbyte_decode_uint32 [1] 1 0 = (1, 1) ∧
    vbyte_decode_uint32 [0, 0, 0, 0, 0, 129] 6 0 = (0, 5) := by
  decide

/-- Bounds for the decode loop: the cursor never moves backwards, never
passes `max M o`, advances at most `(39 - s) / 7` bytes, and the value is
a 32-bit quantity whenever the accumulator is. -/
theorem vbyte_decode_loop_bounds :
    ∀ (k M o r s : Nat) (data : List Nat), M - o ≤ k → s < 32 →
      o ≤ (vbyte_decode_loop data M o r s).2 ∧
      (vbyte_decode_loop data M o r s).2 ≤ o + (39 - s) / 7 ∧
      (vbyte_decode_loop data M o r s).2 ≤ max M o ∧
      (r < 2 ^ 32 → (vbyte_decode_loop data M o r s).1 < 2 ^ 32) := by
  intro k
  induction k with
  | zero =>
    intro M o r s data hk hs
    have hst : ¬ o < M := by omega
    rw [vbyte_decode_loop_stop _ _ _ _ _ hst]
    exact ⟨le_refl o, by omega, le_max_right M o, fun h => h⟩
  | succ k ihk =>
    intro M o r s data hk hs
    by_cases ho : o < M
    · rw [vbyte_decode_loop_step _ _ _ _ _ ho]
      by_cases hterm : data.getD o 0 % 256 &&& 128 ≠ 0
      · rw [if_pos hterm]
        refine ⟨by omega, ?_, ?_, fun _ => Nat.mod_lt _ (by norm_num)⟩
        · have h1 : 1 ≤ (39 - s) / 7 := by omega
          omega
        · exact le_trans ho (le_max_left M o)
      · rw [if_neg hterm]
        by_cases hsh : s + 7 ≥ 32
        · rw [if_pos hsh]
          refine ⟨by omega, ?_, ?_, fun _ => by norm_num⟩
          · have h1 : 1 ≤ (39 - s) / 7 := by omega
            omega
          · exact le_trans ho (le_max_left M o)
        · rw [if_neg hsh]
          have hrec := ihk M (o + 1)
            ((r ||| ((data.getD o 0 % 256) <<< s)) % 2 ^ 32) (s + 7) data
            (by omega) (by omega)
          refine ⟨by omega, ?_, ?_,
            fun _ => hrec.2.2.2 (Nat.mod_lt _ (by norm_num))⟩
          · have h7 : (39 - s) / 7 = (39 - (s + 7)) / 7 + 1 := by omega
            have := hrec.2.1
            omega
          · have h2 := hrec.2.2.1
            have hmx : max M (o + 1) = M := max_eq_left (by omega)
            rw [hmx] at h2
            exact le_trans h2 (le_max_left M o)
    · have hst : ¬ o < M := ho
      rw [vbyte_decode_loop_stop _ _ _ _ _ hst]
      exact ⟨le_refl o, by omega, le_max_right M o, fun h => h⟩

/-- C7 amended: `vbyte_decode_uint32` is total and never signals an error.
The cursor never moves backwards, advances by at most five bytes, and
never passes the end of the window; the returned value is always a 32-bit
quantity. (When the buffer ends before a terminator the partial
accumulated value is returned; after a fifth continuation byte the value
0 is returned — see the counterexample theorem.) -/
theorem C7_decode_total_bounds :
    ∀ (data : List Nat) (M o : Nat),
      o ≤ (vbyte_decode_uint32 data M o).2 ∧
      (vbyte_decode_uint32 data M o).2 ≤ o + 5 ∧
      (vbyte_decode_uint32 data M o).2 ≤ max M o ∧
      (vbyte_decode_uint32 data M o).1 < 2 ^ 32 := by
  intro data M o
  have h := vbyte_decode_loop_bounds (M - o) M o 0 0 data (le_refl _)
    (by norm_num)
  exact ⟨h.1, by simpa using h.2.1, h.2.2.1, h.2.2.2 (by norm_num)⟩

/- ==================== C10 lemmas ==================== -/

/-- The posting loop never produces more than its count argument. -/
theorem decode_postings_loop_length (data : List Nat) (m : Nat) :
    ∀ (c o l : Nat), (decode_postings_loop data m c o l).length ≤ c := by
  intro c
  induction c with
  | zero =>
    intro o l
    simp [decode_postings_loop]
  | succ c ih =>
    intro o l
    simp only [decode_postings_loop]
    by_cases h : o < m
    · rw [if_pos h]
      simpa using Nat.succ_le_succ (ih _ _)
    · rw [if_neg h]
      simp

/-- The decode loop reads the buffer only at indices below `M`. -/
theorem vbyte_decode_loop_congr :
    ∀ (k M o r s : Nat) (d1 d2 : List Nat), M - o ≤ k →
      (∀ i, i < M → d1.getD i 0 = d2.getD i 0) →
      vbyte_decode_loop d1 M o r s = vbyte_decode_loop d2 M o r s := by
  intro k
  induction k with
  | zero =>
    intro M o r s d1 d2 hk hag
    have hst : ¬ o < M := by omega
    rw [vbyte_decode_loop_stop _ _ _ _ _ hst, vbyte_decode_loop_stop _ _ _ _ _ hst]
  | succ k ihk =>
    intro M o r s d1 d2 hk hag
    by_cases ho : o < M
    · rw [vbyte_decode_loop_step _ _ _ _ _ ho, vbyte_decode_loop_step _ _ _ _ _ ho,
        hag o ho]
      by_cases hterm : d2.getD o 0 % 256 &&& 128 ≠ 0
      · rw [if_pos hterm, if_pos hterm]
      · rw [if_neg hterm, if_neg hterm]
        by_cases hsh : s + 7 ≥ 32
        · rw [if_pos hsh, if_pos hsh]
        · rw [if_neg hsh, if_neg hsh, ihk M (o + 1) _ _ d1 d2 (by omega) hag]
    · rw [vbyte_decode_loop_stop _ _ _ _ _ ho, vbyte_decode_loop_stop _ _ _ _ _ ho]

/-- `vbyte_decode_uint32` reads the buffer only at indices below `M`. -/
theorem vbyte_decode_uint32_congr (M o : Nat) (d1 d2 : List Nat)
    (hag : ∀ i, i < M → d1.getD i 0 = d2.getD i 0) :
    vbyte_decode_uint32 d1 M o = vbyte_decode_uint32 d2 M o :=
  vbyte_decode_loop_congr (M - o) M o 0 0 d1 d2 (le_refl _) hag

/-- The position loop reads the buffer only at indices below `M`. -/
theorem decode_positions_congr (M : Nat) (d1 d2 : List Nat)
    (hag : ∀ i, i < M → d1.getD i 0 = d2.getD i 0) :
    ∀ (tf o l : Nat), decode_positions d1 M tf o l = decode_positions d2 M tf o l := by
  intro tf
  induction tf with
  | zero =>
    intro o l
    rfl
  | succ tf ih =>
    intro o l
    simp only [decode_positions]
    by_cases h : o < M
    · rw [if_pos h, if_pos h, vbyte_decode_uint32_congr M o d1 d2 hag, ih]
    · rw [if_neg h, if_neg h]

/-- The posting loop reads the buffer only at indices below `M`. -/
theorem decode_postings_loop_congr (M : Nat) (d1 d2 : List Nat)
    (hag : ∀ i, i < M → d1.getD i 0 = d2.getD i 0) :
    ∀ (c o l : Nat), decode_postings_loop d1 M c o l = decode_postings_loop d2 M c o l := by
  intro c
  induction c with
  | zero =>
    intro o l
    rfl
  | succ c ih =>
    intro o l
    simp only [decode_postings_loop]
    by_cases h : o < M
    · rw [if_pos h, if_pos h, vbyte_decode_uint32_congr M o d1 d2 hag]
      rw [vbyte_decode_uint32_congr M (vbyte_decode_uint32 d2 M o).2 d1 d2 hag]
      rw [decode_positions_congr M d1 d2 hag, ih]
    · rw [if_neg h, if_neg h]

/-- C10: `decode_postings_list` is total and safe for every lexicon entry
and every barrel byte array: when `entry.offset` is not below the buffer
length, or `entry.offset + entry.bytes` exceeds it, the result is empty;
the result never holds more than the decoded `doc_count` postings; and the
result depends only on the bytes strictly below
`entry.offset + entry.bytes` (every read is confined to the entry's
window), even when the bytes are corrupt. -/
theorem C10_decode_postings_safe :
    ∀ (entry : LexiconEntry) (data : List Nat),
      ((entry.offset ≥ data.length ∨ entry.offset + entry.bytes > data.length) →
        decode_postings_list entry data = []) ∧
      (decode_postings_list entry data).length ≤
        (vbyte_decode_uint32 data (entry.offset + entry.bytes) entry.offset).1 ∧
      decode_postings_list entry data
        = decode_postings_list entry (data.take (entry.offset + entry.bytes)) := by
  intro entry data
  have hlen2 : (data.take (entry.offset + entry.bytes)).length
      = min (entry.offset + entry.bytes) data.length := List.length_take _ _
  refine ⟨?_, ?_, ?_⟩
  · intro h
    rcases h with h | h
    · simp only [decode_postings_list]
      rw [if_pos h]
    · simp only [decode_postings_list]
      by_cases h1 : entry.offset ≥ data.length
      · rw [if_pos h1]
      · rw [if_neg h1, if_pos h]
  · simp only [decode_postings_list]
    by_cases h1 : entry.offset ≥ data.length
    · rw [if_pos h1]
      simp
    · rw [if_neg h1]
      by_cases h2 : entry.offset + entry.bytes > data.length
      · rw [if_pos h2]
        simp
      · rw [if_neg h2]
        exact decode_postings_loop_length _ _ _ _ _
  · by_cases h1 : entry.offset ≥ data.length
    · have h1b : entry.offset ≥ (data.take (entry.offset + entry.bytes)).length := by
        omega
      simp only [decode_postings_list]
      rw [if_pos h1, if_pos h1b]
    · by_cases h2 : entry.offset + entry.bytes > data.length
      · have h2b : entry.offset + entry.bytes
            > (data.take (entry.offset + entry.bytes)).length := by omega
        have h1b : ¬ entry.offset ≥ (data.take (entry.offset + entry.bytes)).length := by
          omega
        simp only [decode_postings_list]
        rw [if_neg h1, if_pos h2, if_neg h1b, if_pos h2b]
      · rcases Nat.eq_zero_or_pos entry.bytes with hb | hb
        · have h1b : entry.offset ≥ (data.take (entry.offset + entry.bytes)).length := by
            omega
          simp only [decode_postings_list]
          rw [if_neg h1, if_neg h2, if_pos h1b]
          have hstop : vbyte_decode_uint32 data (entry.offset + entry.bytes)
              entry.offset = (0, entry.offset) := by
            rw [vbyte_decode_uint32, vbyte_decode_loop_stop _ _ _ _ _ (by omega)]
          rw [hstop]
          rfl
        · have h1b : ¬ entry.offset ≥ (data.take (entry.offset + entry.bytes)).length := by
            omega
          have h2b : ¬ entry.offset + entry.bytes
              > (data.take (entry.offset + entry.bytes)).length := by omega
          have hag : ∀ i, i < entry.offset + entry.bytes →
              data.getD i 0 = (data.take (entry.offset + entry.bytes)).getD i 0 := by
            intro i hi
            exact (getD_take_eq data _ i hi).symm
          simp only [decode_postings_list]
          rw [if_neg h1, if_neg h2, if_neg h1b, if_neg h2b]
          rw [vbyte_decode_uint32_congr (entry.offset + entry.bytes) entry.offset _ _ hag]
          rw [decode_postings_loop_congr (entry.offset + entry.bytes) _ _ hag]

/-- Witness for C10 at a concrete out-of-bounds lexicon entry. -/
theorem C10_decode_postings_safe_witness :
    decode_postings_list ⟨1, "t", 1, 1, 10, 5, 0⟩ [0, 0] = [] :=
  (C10_decode_postings_safe ⟨1, "t", 1, 1, 10, 5, 0⟩ [0, 0]).1 (Or.inl (by decide))

/- ==================== C6: duplicate external ids ==================== -/

/-- C6 counterexample: feeding the same external id twice does not fail.
`get_or_assign_docint` silently returns the previously assigned internal id
(both records get internal id 1) and leaves the registry unchanged; the
build stream is processed to completion and no `DuplicateExternalId`
error exists anywhere in the code. -/
theorem C6_duplicate_extid_counterexample :
    assign_stream ["d1", "d1"] ⟨[], 1⟩
      = ([1, 1], ⟨[("d1", 1)], 2⟩) := by
  decide

/-- C6 amended: when the external id is already registered,
`get_or_assign_docint` returns the existing internal id and leaves the
registry state unchanged (the duplicate document is merged under the same
internal id rather than rejected). -/
theorem C6_duplicate_returns_existing :
    ∀ (orig : String) (st : DocidState) (p : String × Nat),
      st.docid_to_int.find? (fun q => q.1 == orig) = some p →
      get_or_assign_docint orig st = (p.2, st) := by
  intro orig st p h
  simp [get_or_assign_docint, h]

/-- Witness for the amended C6 at a registry already holding `"d1"`. -/
theorem C6_duplicate_returns_existing_witness :
    get_or_assign_docint "d1" ⟨[("d1", 1)], 2⟩ = (1, ⟨[("d1", 1)], 2⟩) :=
  C6_duplicate_returns_existing "d1" ⟨[("d1", 1)], 2⟩ ("d1", 1) (by decide)

/- ==================== C3: flush does not sort ==================== -/

/-- C3: `flush_block_to_disk` writes the term lines in the dictionary's
iteration order without sorting. A block dictionary whose iteration order
is `"b"` before `"a"` is flushed as the lines `["b\t1:0", "a\t1:1"]`,
which are not in ascending term order since `"b" ≤ "a"` fails — yet the
k-way merge reading these files assumes each block is sorted. -/
theorem C3_flush_writes_unsorted :
    flush_block_to_disk [("b", [⟨1, [0]⟩]), ("a", [⟨1, [1]⟩])]
      = ["b\t1:0", "a\t1:1"] ∧
    ¬ (("b" : String) ≤ "a") := by
  constructor
  · decide
  · rw [String.le_iff_toList_le]
    decide

/- ==================== C8: positions not deduplicated ==================== -/

unseal vbyte_encode_uint32 vbyte_decode_loop List.merge List.mergeSort String.ltb in
/-- C8: the block merger sorts each document's gathered positions but never
deduplicates them. A block line carrying the same position twice for one
`(term, doc)` pair (possible because the cleaner aggregates fields into one
position stream, so two fields can both contribute position 0) is re-emitted
with positions `[0, 0]`: the merged posting, the delta-encoded bytes, and
the posting decoded back from those bytes all carry the duplicate, so the
encoded position sequence is not strictly ascending and duplicate-free. -/
theorem C8_positions_not_deduplicated :
    merged_postings [⟨"t", [(1, [0, 0])]⟩] = [(1, [0, 0])] ∧
    merge_blocks_into_barrels (fun _ => 0) [[⟨"t", [(1, [0, 0])]⟩]]
      = [⟨1, "t", 1, 2, 0, 5, 0⟩] ∧
    encode_postings [(1, [0, 0])] = [129, 129, 130, 128, 128] ∧
    decode_postings_list ⟨1, "t", 1, 2, 0, 5, 0⟩ [129, 129, 130, 128, 128]
      = [⟨1, 2, [0, 0]⟩] ∧
    ¬ List.Pairwise (fun a b : Nat => a < b) [0, 0] := by
  refine ⟨by decide, by decide, by decide, by decide, by decide⟩

/- ==================== C2: lexicon order follows block order ==================== -/

unseal vbyte_encode_uint32 List.merge List.mergeSort String.ltb in
/-- C2: the lexicon produced by the indexer build is not sorted. Flushing a
document containing terms `"b"` (position 0) and `"a"` (position 1) under
the dictionary iteration order `"b"` before `"a"` (an order `unordered_map`
is free to produce) writes an unsorted block file; the k-way merge over
that block then emits `"b"` with word id 1 and `"a"` with word id 2, so
iterating the lexicon in ascending word-id order yields `["b", "a"]`,
which is not in ascending lexicographic order. -/
theorem C2_lexicon_not_sorted :
    merge_blocks_into_barrels (fun _ => 0)
        [[⟨"b", [(1, [0])]⟩, ⟨"a", [(1, [1])]⟩]]
      = [⟨1, "b", 1, 1, 0, 4, 0⟩, ⟨2, "a", 1, 1, 4, 4, 0⟩] ∧
    (merge_blocks_into_barrels (fun _ => 0)
        [[⟨"b", [(1, [0])]⟩, ⟨"a", [(1, [1])]⟩]]).map (fun e => e.term)
      = ["b", "a"] ∧
    ¬ (("b" : String) < "a") := by
  refine ⟨by decide, by decide, ?_⟩
  rw [String.lt_iff_toList_lt]
  decide

/- ==================== C4 / C9: descending sorts ==================== -/

/-- A merge sort under a score-descending comparator yields a list sorted
by non-increasing score. -/
theorem sorted_mergeSort_desc {α : Type} (f : α → ℚ) (l : List α) :
    List.Sorted (fun a b => f b ≤ f a)
      (l.mergeSort (fun a b => decide (f b ≤ f a))) := by
  have h := @List.sorted_mergeSort α (fun a b : α => decide (f b ≤ f a))
    (fun a b c h1 h2 => by
      simp only [decide_eq_true_eq] at h1 h2 ⊢
      exact le_trans h2 h1)
    (fun a b => by
      simp only [Bool.or_eq_true, decide_eq_true_eq]
      exact le_total (f b) (f a)) l
  exact h.imp (fun hab => of_decide_eq_true hab)

unseal List.merge List.mergeSort in
/-- C4 counterexample: the final sort compares only `final_score`, so a tie
is NOT broken by ascending doc id: with two results of equal score the
output order follows the pre-sort (hash-map iteration) order. Feeding the
tied pair as `[docid 2, docid 1]` returns doc 2 first — not ascending —
while feeding `[docid 1, docid 2]` returns doc 1 first, so the returned
list depends on the unordered hash-map iteration order rather than on the
doc ids. -/
theorem C4_tie_not_broken_by_docid_counterexample :
    sort_results [⟨2, 5⟩, ⟨1, 5⟩] 10 = [⟨2, 5⟩, ⟨1, 5⟩] ∧
    (sort_results [⟨2, 5⟩, ⟨1, 5⟩] 10).map (fun r => r.docid) = [2, 1] ∧
    sort_results [⟨1, 5⟩, ⟨2, 5⟩] 10 = [⟨1, 5⟩, ⟨2, 5⟩] := by
  refine ⟨by decide, by decide, by decide⟩

/-- C4 amended: the returned result list is sorted by non-increasing
`final_score` and truncated to `top_k` results, each taken from the scored
input; the order of tied results is not specified by the comparator (it
follows the hash-map iteration order), so ties are not broken by doc id. -/
theorem C4_sorted_desc_truncated :
    ∀ (results : List RankedResult) (top_k : Nat),
      List.Sorted (fun a b : RankedResult => b.final_score ≤ a.final_score)
        (sort_results results top_k) ∧
      (sort_results results top_k).length ≤ top_k ∧
      ∀ r ∈ sort_results results top_k, r ∈ results := by
  intro results top_k
  refine ⟨?_, ?_, ?_⟩
  · exact List.Pairwise.sublist (List.take_sublist _ _)
      (sorted_mergeSort_desc (fun r : RankedResult => r.final_score) results)
  · simp [sort_results]
  · intro r hr
    have h1 : r ∈ results.mergeSort
        (fun a b => decide (b.final_score ≤ a.final_score)) :=
      List.mem_of_mem_take hr
    exact List.mem_mergeSort.mp h1

/-- C9: for every query, the autocomplete suggestion list served from the
built index is sorted by non-increasing popularity and contains at most
`topK` entries (`topK` defaults to 20 in the builder). -/
theorem C9_autocomplete_sorted_bounded :
    ∀ (terms : List TermInfo) (maxLen topK : Nat) (query : String)
      (max_results : Nat),
      List.Sorted (fun a b : Suggestion => b.popularity ≤ a.popularity)
        (get_suggestions (build_autocomplete_index terms maxLen topK)
          query max_results) ∧
      (get_suggestions (build_autocomplete_index terms maxLen topK)
          query max_results).length ≤ topK := by
  intro terms maxLen topK query max_results
  simp only [get_suggestions]
  by_cases h2 : (lower_string query).length < 2
  · rw [if_pos h2]
    exact ⟨List.sorted_nil, by simp⟩
  · rw [if_neg h2]
    have hsorted : List.Sorted (fun a b : Suggestion => b.popularity ≤ a.popularity)
        (build_autocomplete_index terms maxLen topK
          (if (lower_string query).length > 15 then (lower_string query).take 15
           else lower_string query)) := by
      apply List.Pairwise.sublist (List.take_sublist _ _)
      exact sorted_mergeSort_desc (fun s : Suggestion => s.popularity) _
    have hlen : (build_autocomplete_index terms maxLen topK
        (if (lower_string query).length > 15 then (lower_string query).take 15
         else lower_string query)).length ≤ topK := by
      simp [build_autocomplete_index]
    refine ⟨List.Pairwise.sublist (List.take_sublist _ _) hsorted, ?_⟩
    have := List.length_take_le (min max_results
      (build_autocomplete_index terms maxLen topK
        (if (lower_string query).length > 15 then (lower_string query).take 15
         else lower_string query)).length)
      (build_autocomplete_index terms maxLen topK
        (if (lower_string query).length > 15 then (lower_string query).take 15
         else lower_string query))
    omega

/- ==================== C5 lemmas ==================== -/

/-- Membership in the pairwise intersection. -/
theorem mem_intersect_docs (d : Nat) (a b : List Nat) :
    d ∈ intersect_docs a b ↔ d ∈ a ∧ d ∈ b := by
  simp [intersect_docs, List.mem_filter, List.contains, List.elem_iff]

/-- Membership in the AND intersection fold (with early exit). -/
theorem mem_fold_intersect (d : Nat) :
    ∀ (rest : List (List Nat)) (s0 : List Nat),
      d ∈ fold_intersect s0 rest ↔ d ∈ s0 ∧ ∀ s ∈ rest, d ∈ s := by
  intro rest
  induction rest with
  | nil =>
    intro s0
    simp [fold_intersect]
  | cons s rest ih =>
    intro s0
    simp only [fold_intersect]
    by_cases he : (intersect_docs s0 s).isEmpty
    · rw [if_pos he]
      have hemp : intersect_docs s0 s = [] := List.isEmpty_iff.mp he
      constructor
      · intro h
        exact absurd h (List.not_mem_nil d)
      · rintro ⟨h0, hall⟩
        have hm : d ∈ intersect_docs s0 s :=
          (mem_intersect_docs d s0 s).mpr ⟨h0, hall s (by simp)⟩
        rw [hemp] at hm
        exact absurd hm (List.not_mem_nil d)
    · rw [if_neg he, ih, mem_intersect_docs, List.forall_mem_cons]
      tauto

/-- Membership in the phrase candidate fold (no early exit). -/
theorem mem_foldl_intersect (d : Nat) :
    ∀ (rest : List (List Nat)) (s0 : List Nat),
      d ∈ rest.foldl intersect_docs s0 ↔ d ∈ s0 ∧ ∀ s ∈ rest, d ∈ s := by
  intro rest
  induction rest with
  | nil =>
    intro s0
    simp
  | cons s rest ih =>
    intro s0
    rw [List.foldl_cons, ih, mem_intersect_docs, List.forall_mem_cons]
    tauto

/-- Membership in the OR result doc-id list. -/
theorem mem_or_docids (idx : SearchIndex) (terms : List String) (d : Nat) :
    d ∈ search_query_ranked_docids idx terms ↔
      found_entries idx terms ≠ [] ∧
      ∃ e ∈ found_entries idx terms,
        d ∈ (get_postings idx e).map (fun p => p.docid) := by
  simp only [search_query_ranked_docids]
  by_cases he : (found_entries idx terms).isEmpty
  · rw [if_pos he]
    have h0 := List.isEmpty_iff.mp he
    simp [h0]
  · rw [if_neg he]
    have hne : found_entries idx terms ≠ [] := by
      simpa [List.isEmpty_iff] using he
    constructor
    · intro h
      rcases List.mem_flatten.mp h with ⟨l, hl, hd⟩
      rcases List.mem_map.mp hl with ⟨e, hein, rfl⟩
      exact ⟨hne, e, hein, hd⟩
    · rintro ⟨-, e, hein, hd⟩
      exact List.mem_flatten.mpr ⟨_, List.mem_map_of_mem _ hein, hd⟩

/-- Membership in the AND result doc-id list. -/
theorem mem_and_docids (idx : SearchIndex) (terms : List String) (d : Nat) :
    d ∈ search_query_and_ranked_docids idx terms ↔
      found_entries idx terms ≠ [] ∧
      (found_entries idx terms).length = terms.length ∧
      ∀ e ∈ found_entries idx terms,
        d ∈ (get_postings idx e).map (fun p => p.docid) := by
  simp only [search_query_and_ranked_docids]
  by_cases hg : ((found_entries idx terms).isEmpty
      || (found_entries idx terms).length != terms.length)
  · rw [if_pos hg]
    simp only [Bool.or_eq_true, List.isEmpty_iff, bne_iff_ne] at hg
    simp only [List.not_mem_nil, false_iff]
    rintro ⟨hne, hlen, -⟩
    rcases hg with h | h
    · exact hne h
    · exact h hlen
  · rw [if_neg hg]
    simp only [Bool.or_eq_true, List.isEmpty_iff, bne_iff_ne, not_or, not_not] at hg
    obtain ⟨hne, hlen⟩ := hg
    have hord : (found_entries idx terms).mergeSort
        (fun a b => a.doc_freq ≤ b.doc_freq) ≠ [] := by
      intro h
      have hp := List.mergeSort_perm (found_entries idx terms)
        (fun a b => decide (a.doc_freq ≤ b.doc_freq))
      rw [h] at hp
      exact hne (hp.nil_eq).symm
    obtain ⟨o0, os, ho⟩ := List.exists_cons_of_ne_nil hord
    rw [ho]
    show d ∈ fold_intersect ((get_postings idx o0).map (fun p => p.docid))
        (os.map (fun e => (get_postings idx e).map (fun p => p.docid))) ↔ _
    rw [mem_fold_intersect]
    constructor
    · rintro ⟨h0, hrest⟩
      refine ⟨hne, hlen, ?_⟩
      intro e he
      have he2 : e ∈ o0 :: os := by
        rw [← ho]
        exact List.mem_mergeSort.mpr he
      rcases List.mem_cons.mp he2 with rfl | hm
      · exact h0
      · exact hrest _ (List.mem_map_of_mem _ hm)
    · rintro ⟨-, -, hall⟩
      have ho0 : o0 ∈ found_entries idx terms := by
        apply List.mem_mergeSort.mp
        rw [ho]
        simp
      refine ⟨hall o0 ho0, ?_⟩
      intro s hs
      rcases List.mem_map.mp hs with ⟨e, he, rfl⟩
      have hee : e ∈ found_entries idx terms := by
        apply List.mem_mergeSort.mp
        rw [ho]
        exact List.mem_cons_of_mem _ he
      exact hall e hee

/-- C5: for any query and any index state, the doc-id set returned by the
PHRASE search is contained in the set returned by the AND search over the
same terms, which is contained in the set returned by the OR search. (The
three lists here are the matched doc ids before ranking; with `top_k` at
least the number of matches the ranked output is a permutation of them,
so the containments transfer to the returned result lists.) -/
theorem C5_result_set_inclusions :
    ∀ (idx : SearchIndex) (terms : List String) (d : Nat),
      (d ∈ search_phrase_ranked_docids idx terms →
        d ∈ search_query_and_ranked_docids idx terms) ∧
      (d ∈ search_query_and_ranked_docids idx terms →
        d ∈ search_query_ranked_docids idx terms) := by
  intro idx terms d
  constructor
  · intro hd
    simp only [search_phrase_ranked_docids] at hd
    by_cases hte : terms.isEmpty
    · rw [if_pos hte] at hd
      exact absurd hd (List.not_mem_nil d)
    · rw [if_neg hte] at hd
      by_cases hbl : ((found_entries idx terms).length != terms.length)
      · rw [if_pos hbl] at hd
        exact absurd hd (List.not_mem_nil d)
      · rw [if_neg hbl] at hd
        have hlen : (found_entries idx terms).length = terms.length := by
          simpa using hbl
        have htne : terms ≠ [] := by
          simpa [List.isEmpty_iff] using hte
        have hne : found_entries idx terms ≠ [] := by
          intro h
          apply htne
          rw [h] at hlen
          exact (List.length_eq_zero.mp hlen.symm)
        obtain ⟨e0, es, he⟩ := List.exists_cons_of_ne_nil hne
        have hcand := List.mem_of_mem_filter hd
        rw [he] at hcand
        simp only [List.map_cons, List.headD_cons, List.drop_succ_cons,
          List.drop_zero] at hcand
        rw [mem_foldl_intersect] at hcand
        obtain ⟨h0, hrest⟩ := hcand
        rw [mem_and_docids]
        refine ⟨hne, hlen, ?_⟩
        intro e hein
        rw [he] at hein
        rcases List.mem_cons.mp hein with rfl | hm
        · exact h0
        · apply hrest
          rw [List.map_map]
          exact List.mem_map_of_mem _ hm
  · intro hd
    obtain ⟨hne, hlen, hall⟩ := (mem_and_docids idx terms d).mp hd
    obtain ⟨e0, es, he⟩ := List.exists_cons_of_ne_nil hne
    rw [mem_or_docids]
    exact ⟨hne, e0, by rw [he]; simp, hall e0 (by rw [he]; simp)⟩

unseal vbyte_decode_loop String.mapAux in
/-- Witness for C5 on a two-term index (`"a"` at position 0 and `"b"` at
position 1 of document 1; `"b"` also in document 2): document 1 is a
phrase hit for `"a b"`, hence in the AND result set and in the OR result
set. -/
theorem C5_result_set_inclusions_witness :
    1 ∈ search_query_and_ranked_docids
        ⟨[("a", ⟨1, "a", 1, 1, 0, 4, 0⟩), ("b", ⟨2, "b", 2, 2, 4, 7, 0⟩)],
         [[129, 129, 129, 128, 130, 129, 129, 129, 129, 129, 128],
          [], [], []]⟩ ["a", "b"] ∧
    1 ∈ search_query_ranked_docids
        ⟨[("a", ⟨1, "a", 1, 1, 0, 4, 0⟩), ("b", ⟨2, "b", 2, 2, 4, 7, 0⟩)],
         [[129, 129, 129, 128, 130, 129, 129, 129, 129, 129, 128],
          [], [], []]⟩ ["a", "b"] :=
  ⟨(C5_result_set_inclusions
      ⟨[("a", ⟨1, "a", 1, 1, 0, 4, 0⟩), ("b", ⟨2, "b", 2, 2, 4, 7, 0⟩)],
       [[129, 129, 129, 128, 130, 129, 129, 129, 129, 129, 128],
        [], [], []]⟩ ["a", "b"] 1).1 (by decide),
   (C5_result_set_inclusions
      ⟨[("a", ⟨1, "a", 1, 1, 0, 4, 0⟩), ("b", ⟨2, "b", 2, 2, 4, 7, 0⟩)],
       [[129, 129, 129, 128, 130, 129, 129, 129, 129, 129, 128],
        [], [], []]⟩ ["a", "b"] 1).2
     ((C5_result_set_inclusions
      ⟨[("a", ⟨1, "a", 1, 1, 0, 4, 0⟩), ("b", ⟨2, "b", 2, 2, 4, 7, 0⟩)],
       [[129, 129, 129, 128, 130, 129, 129, 129, 129, 129, 128],
        [], [], []]⟩ ["a", "b"] 1).1 (by decide))⟩
